import Mathlib

/-!
Verification of the VRAM coordination core of the LocalMCP repository
(`mcp-services/mcp-manager/src/services/vramManager.ts`).

The embedding models JavaScript numbers as exact rationals (`ℚ`), the
insertion-ordered `Map<string, ServiceInfo>` as a list with JS `Map.set`
semantics (replace-in-place on an existing key, append otherwise), and
`Date` timestamps as rational epoch milliseconds.  The hardware probe
(`updateTotalVram`) is modelled as a fixed configured total; the JSON
config file is modelled as a list of persisted service records held in
the manager state.  Outbound HTTP notification is modelled by an
explicit boolean outcome parameter plus an event trace, mirroring the
fact that the source only logs a warning on a failed `fetch`.
-/

namespace LocalMCP

/-- A model entry as stored in the registry (`ModelInfo` in the source). -/
structure ModelInfo where
  name : String
  vramUsageGb : ℚ
  lastUsed : ℚ
deriving Repr, DecidableEq

/-- The wire shape `{ name, vramUsageGb }` used both as registration input
and as the persisted form of a model. -/
structure ModelSpec where
  name : String
  vramUsageGb : ℚ
deriving Repr, DecidableEq

/-- A registered service (`ServiceInfo` in the source). -/
structure ServiceInfo where
  name : String
  url : String
  models : List ModelInfo
  usedVramGb : ℚ
deriving Repr, DecidableEq

/-- Persisted form of a service, as written by `saveServicesToConfig`. -/
structure PersistedService where
  name : String
  url : String
  models : List ModelSpec
deriving Repr, DecidableEq

/-- Per-service entry of a `VRAMStatus` snapshot. -/
structure ServiceStatus where
  name : String
  usedVramGb : ℚ
  models : List String
deriving Repr, DecidableEq

/-- Status record `VRAMStatus` as returned by `getVRAMStatus`. -/
structure VRAMStatus where
  totalVramGb : ℚ
  usedVramGb : ℚ
  availableVramGb : ℚ
  services : List ServiceStatus
deriving Repr, DecidableEq

/-- Result record `UnloadModelResult` in the source. -/
structure UnloadModelResult where
  success : Bool
  freedVramGb : ℚ
  message : String
deriving Repr, DecidableEq

/-- Result record `RegisterServiceResult` in the source. -/
structure RegisterServiceResult where
  success : Bool
  message : String
deriving Repr, DecidableEq

/-- Environment-derived configuration of the manager: `MAX_VRAM_USAGE_GB`
is unused by the admitted paths we model, so the relevant fields are the
probed total, the reserve and the idle timeout (in minutes). -/
structure Config where
  totalVramGb : ℚ
  vramReserveGb : ℚ
  unloadTimeoutMinutes : ℚ
deriving Repr, DecidableEq

/-- The mutable state of a `VRAMManager`: the services map (insertion
ordered) and the contents of the services config file. -/
structure MState where
  services : List ServiceInfo
  config : List PersistedService
deriving Repr, DecidableEq

/-- JS `Map.get` on the insertion-ordered services map. -/
def mapGet (l : List ServiceInfo) (name : String) : Option ServiceInfo :=
  l.find? (fun s => s.name == name)

/-- JS `Map.set`: replace in place when the key exists, append otherwise. -/
def mapSet : List ServiceInfo → String → ServiceInfo → List ServiceInfo
  | [], _, v => [v]
  | s :: rest, name, v =>
      if s.name == name then v :: rest else s :: mapSet rest name v

/-- Sum of `vramUsageGb` over a list of models (the various `reduce`
calls in the source). -/
def modelSum (models : List ModelInfo) : ℚ :=
  (models.map (fun m => m.vramUsageGb)).sum

/-- Sum of `vramUsageGb` over registration/persisted model specs. -/
def specSum (models : List ModelSpec) : ℚ :=
  (models.map (fun m => m.vramUsageGb)).sum

/-- Total used VRAM: the `reduce` over `service.usedVramGb` in
`getVRAMStatus`. -/
def usedVramTotal (services : List ServiceInfo) : ℚ :=
  (services.map (fun s => s.usedVramGb)).sum

/-- The `saveServicesToConfig` write: project each service to its persisted form
(name, url, model names and amounts; timestamps dropped). -/
def serializeServices (services : List ServiceInfo) : List PersistedService :=
  services.map (fun s =>
    { name := s.name
      url := s.url
      models := s.models.map (fun m => { name := m.name, vramUsageGb := m.vramUsageGb }) })

/-- One persisted record rebuilt into a live service entry: models are
stamped with the load time and `usedVramGb` is recomputed as the sum of
the model amounts (the loop body of `loadServicesFromConfig`). -/
def loadOne (now : ℚ) (svc : PersistedService) : ServiceInfo :=
  { name := svc.name
    url := svc.url
    models := svc.models.map (fun m =>
      { name := m.name, vramUsageGb := m.vramUsageGb, lastUsed := now })
    usedVramGb := specSum svc.models }

/-- The `loadServicesFromConfig` startup path: rebuild the services map from the persisted
records via `Map.set`. -/
def loadServices (config : List PersistedService) (now : ℚ) : List ServiceInfo :=
  config.foldl (fun acc svc => mapSet acc svc.name (loadOne now svc)) []

/-- The `getVRAMStatus` snapshot (the total-VRAM re-probe is modelled as returning the
configured constant total). -/
def getVRAMStatus (cfg : Config) (services : List ServiceInfo) : VRAMStatus :=
  let used := usedVramTotal services
  let available := max 0 (cfg.totalVramGb - used - cfg.vramReserveGb)
  { totalVramGb := cfg.totalVramGb
    usedVramGb := used
    availableVramGb := available
    services := services.map (fun s =>
      { name := s.name
        usedVramGb := s.usedVramGb
        models := s.models.map (fun m => m.name) }) }

/-- The `registerService` operation: reject when the requested sum exceeds the available
VRAM, otherwise wholesale-replace (or create) the service entry and
persist.  `now` stands for the `new Date()` stamped on each model. -/
def registerService (cfg : Config) (st : MState) (serviceName serviceUrl : String)
    (models : List ModelSpec) (now : ℚ) : RegisterServiceResult × MState :=
  let serviceVramUsage := specSum models
  let status := getVRAMStatus cfg st.services
  if serviceVramUsage > status.availableVramGb then
    ({ success := false
       message := "Not enough VRAM available" }, st)
  else
    let serviceInfo : ServiceInfo :=
      { name := serviceName
        url := serviceUrl
        models := models.map (fun m =>
          { name := m.name, vramUsageGb := m.vramUsageGb, lastUsed := now })
        usedVramGb := serviceVramUsage }
    let services := mapSet st.services serviceName serviceInfo
    ({ success := true
       message := "Service " ++ serviceName ++ " registered successfully" },
     { services := services, config := serializeServices services })

/-- The `findIndex` on the model name followed by `splice(modelIndex, 1)`:
remove the first model with the given name, returning it and the rest. -/
def removeFirst (modelName : String) :
    List ModelInfo → Option (ModelInfo × List ModelInfo)
  | [] => none
  | m :: ms =>
      if m.name == modelName then some (m, ms)
      else (removeFirst modelName ms).map (fun p => (p.1, m :: p.2))

/-- Observable events of an unload, in the order the source performs
them: ledger commit, config write, outbound notification attempt
(carrying the outcome of the `fetch`). -/
inductive Event where
  | commit : Event
  | persist : Event
  | notifyAttempt : Bool → Event
deriving Repr, DecidableEq

/-- Result of `unloadModelInternal`: the returned value, the state after
the call, and the trace of side effects. -/
structure UnloadOutcome where
  result : UnloadModelResult
  state : MState
  events : List Event
deriving Repr, DecidableEq

/-- The `unloadModelInternal` operation.  `notifyOk` is the outcome of the outbound
`fetch`; the source only `console.warn`s when it fails, which the model
records in the event trace. -/
def unloadModelInternal (st : MState) (modelName serviceName : String)
    (notifyOk : Bool) : UnloadOutcome :=
  match mapGet st.services serviceName with
  | none =>
      { result := { success := false, freedVramGb := 0
                    message := "Service " ++ serviceName ++ " not found" }
        state := st
        events := [] }
  | some service =>
      match removeFirst modelName service.models with
      | none =>
          { result := { success := false, freedVramGb := 0
                        message := "Model " ++ modelName ++ " not found in service " ++ serviceName }
            state := st
            events := [] }
      | some (model, rest) =>
          let freedVramGb := model.vramUsageGb
          let service' : ServiceInfo :=
            { service with
                models := rest
                usedVramGb := service.usedVramGb - freedVramGb }
          let services' := mapSet st.services serviceName service'
          { result := { success := true, freedVramGb := freedVramGb
                        message := "Model " ++ modelName ++ " unloaded successfully" }
            state := { services := services', config := serializeServices services' }
            events := [Event.commit, Event.persist, Event.notifyAttempt notifyOk] }

/-- The `updateModelUsage` in-place mutation of `model.lastUsed` on the
first model found with the given name. -/
def touchFirst (modelName : String) (now : ℚ) :
    List ModelInfo → Option (List ModelInfo)
  | [] => none
  | m :: ms =>
      if m.name == modelName then some ({ m with lastUsed := now } :: ms)
      else (touchFirst modelName now ms).map (fun l => m :: l)

/-- The `updateModelUsage` operation: refresh the last-used stamp of one model; no
persistence write. -/
def updateModelUsage (st : MState) (modelName serviceName : String)
    (now : ℚ) : Bool × MState :=
  match mapGet st.services serviceName with
  | none => (false, st)
  | some service =>
      match touchFirst modelName now service.models with
      | none => (false, st)
      | some models' =>
          let services' := mapSet st.services serviceName { service with models := models' }
          (true, { st with services := services' })

/-- The inner `for (const model of service.models)` loop of
`autoUnloadInactiveModels`, with JS array-iterator semantics: the
iterator keeps a cursor `k` that advances every step even when the body
splices the element at the cursor out of the live array, so the element
following each unloaded model is skipped.  `fuel` bounds the iteration
by the length of the array when the loop starts, which the cursor can
never outrun since unloads only shorten the array. -/
def sweepModels (cfg : Config) (now : ℚ) (serviceName : String) :
    Nat → Nat → MState → MState
  | 0, _, st => st
  | Nat.succ fuel, k, st =>
      match mapGet st.services serviceName with
      | none => st
      | some service =>
          if h : k < service.models.length then
            let model := service.models.get ⟨k, h⟩
            if (now - model.lastUsed) / (1000 * 60) > cfg.unloadTimeoutMinutes then
              sweepModels cfg now serviceName fuel (k + 1)
                (unloadModelInternal st model.name serviceName true).state
            else
              sweepModels cfg now serviceName fuel (k + 1) st
          else st

/-- The `autoUnloadInactiveModels` sweep: visit every service in map order.  The
unloads it performs never add, remove or reorder services, so iterating
the service names captured from the current state matches the JS
iteration over live map values. -/
def autoUnloadInactiveModels (cfg : Config) (now : ℚ) (st : MState) : MState :=
  (st.services.map (fun s => s.name)).foldl
    (fun acc nm =>
      let len := match mapGet acc.services nm with
                 | none => 0
                 | some s => s.models.length
      sweepModels cfg now nm len 0 acc)
    st

/-- Sum of loaded lease amounts across the whole registry, model by
model (the "sum of `amount` over all Leases with `loaded = true`" of the
spec: in the source a lease is loaded exactly while its record is in the
service's model list). -/
def loadedSum (services : List ServiceInfo) : ℚ :=
  (services.map (fun s => modelSum s.models)).sum

/-- States reachable from the empty registry through the public
operations (`getVRAMStatus` touches no registry state in the model and
is omitted as a no-op).  Registration inputs carry the spec's data-model
constraint that committed amounts are non-negative quantities. -/
inductive Reachable (cfg : Config) : MState → Prop where
  | init : Reachable cfg { services := [], config := [] }
  | register (st : MState) (serviceName serviceUrl : String)
      (models : List ModelSpec) (now : ℚ)
      (hm : ∀ m ∈ models, 0 ≤ m.vramUsageGb)
      (hst : Reachable cfg st) :
      Reachable cfg (registerService cfg st serviceName serviceUrl models now).2
  | unload (st : MState) (modelName serviceName : String) (notifyOk : Bool)
      (hst : Reachable cfg st) :
      Reachable cfg (unloadModelInternal st modelName serviceName notifyOk).state
  | touch (st : MState) (modelName serviceName : String) (now : ℚ)
      (hst : Reachable cfg st) :
      Reachable cfg (updateModelUsage st modelName serviceName now).2
  | sweep (st : MState) (now : ℚ)
      (hst : Reachable cfg st) :
      Reachable cfg (autoUnloadInactiveModels cfg now st)

/-- Per-service consistency: the cached `usedVramGb` equals the sum of
the amounts of the models the service holds, and every amount is a
non-negative quantity (the spec's data-model constraint on lease
amounts). -/
def ServiceWF (s : ServiceInfo) : Prop :=
  s.usedVramGb = modelSum s.models ∧ ∀ m ∈ s.models, 0 ≤ m.vramUsageGb

/-- All services of a state are consistent. -/
def StateWF (st : MState) : Prop := ∀ s ∈ st.services, ServiceWF s

/-- The inductive invariant: consistency plus the ledger bound. -/
def Inv (cfg : Config) (st : MState) : Prop :=
  StateWF st ∧ usedVramTotal st.services ≤ cfg.totalVramGb - cfg.vramReserveGb

theorem modelSum_nonneg {models : List ModelInfo}
    (h : ∀ m ∈ models, 0 ≤ m.vramUsageGb) : 0 ≤ modelSum models := by
  apply List.sum_nonneg
  intro x hx
  rcases List.mem_map.mp hx with ⟨m, hm, rfl⟩
  exact h m hm

theorem specSum_nonneg {models : List ModelSpec}
    (h : ∀ m ∈ models, 0 ≤ m.vramUsageGb) : 0 ≤ specSum models := by
  apply List.sum_nonneg
  intro x hx
  rcases List.mem_map.mp hx with ⟨m, hm, rfl⟩
  exact h m hm

theorem mem_mapSet {l : List ServiceInfo} {nm : String} {v a : ServiceInfo}
    (h : a ∈ mapSet l nm v) : a = v ∨ a ∈ l := by
  induction l with
  | nil => simpa [mapSet] using h
  | cons s rest ih =>
      by_cases hs : s.name == nm
      · simp [mapSet, hs] at h
        rcases h with h | h
        · exact Or.inl h
        · exact Or.inr (List.mem_cons_of_mem _ h)
      · simp [mapSet, hs] at h
        rcases h with rfl | h
        · exact Or.inr (List.mem_cons_self _ _)
        · rcases ih h with h' | h'
          · exact Or.inl h'
          · exact Or.inr (List.mem_cons_of_mem _ h')

theorem usedVramTotal_cons (s : ServiceInfo) (l : List ServiceInfo) :
    usedVramTotal (s :: l) = s.usedVramGb + usedVramTotal l := by
  simp [usedVramTotal]

theorem usedVramTotal_mapSet_le {l : List ServiceInfo} {nm : String} {v : ServiceInfo}
    (h0 : ∀ s ∈ l, 0 ≤ s.usedVramGb) :
    usedVramTotal (mapSet l nm v) ≤ usedVramTotal l + v.usedVramGb := by
  induction l with
  | nil => simp [mapSet, usedVramTotal]
  | cons s rest ih =>
      by_cases hs : s.name == nm
      · simp only [mapSet, hs, if_pos, usedVramTotal_cons]
        have hsn : 0 ≤ s.usedVramGb := h0 s (List.mem_cons_self s rest)
        linarith
      · simp only [mapSet, hs, if_neg, usedVramTotal_cons, Bool.false_eq_true,
          not_false_iff]
        have := ih (fun x hx => h0 x (List.mem_cons_of_mem _ hx))
        linarith

theorem usedVramTotal_mapSet_of_get {l : List ServiceInfo} {nm : String}
    {s v : ServiceInfo} (h : mapGet l nm = some s) :
    usedVramTotal (mapSet l nm v) = usedVramTotal l - s.usedVramGb + v.usedVramGb := by
  induction l with
  | nil => simp [mapGet] at h
  | cons a rest ih =>
      by_cases ha : a.name == nm
      · have hs : a = s := by
          simpa [mapGet, List.find?, ha] using h
        subst hs
        simp only [mapSet, ha, if_pos, usedVramTotal_cons]
        ring
      · have h' : mapGet rest nm = some s := by
          simpa [mapGet, List.find?, ha] using h
        simp only [mapSet, ha, if_neg, usedVramTotal_cons, Bool.false_eq_true,
          not_false_iff]
        rw [ih h']
        ring

theorem mapGet_mem {l : List ServiceInfo} {nm : String} {s : ServiceInfo}
    (h : mapGet l nm = some s) : s ∈ l :=
  List.mem_of_find?_eq_some h

theorem removeFirst_eq_some {nm : String} {l rest : List ModelInfo} {m : ModelInfo}
    (h : removeFirst nm l = some (m, rest)) :
    m ∈ l ∧ modelSum l = m.vramUsageGb + modelSum rest ∧ ∀ x ∈ rest, x ∈ l := by
  induction l generalizing rest with
  | nil => simp [removeFirst] at h
  | cons a tl ih =>
      by_cases ha : a.name == nm
      · simp only [removeFirst, ha, if_pos, Option.some.injEq, Prod.mk.injEq] at h
        obtain ⟨rfl, rfl⟩ := h
        refine ⟨List.mem_cons_self _ _, by simp [modelSum], fun x hx => List.mem_cons_of_mem _ hx⟩
      · simp only [removeFirst, ha, if_neg, Bool.false_eq_true, not_false_iff,
          Option.map_eq_some'] at h
        rcases h with ⟨⟨m', rest'⟩, hrec, heq⟩
        simp only [Prod.mk.injEq] at heq
        obtain ⟨rfl, rfl⟩ := heq
        rcases ih hrec with ⟨hmem, hsum, hsub⟩
        refine ⟨List.mem_cons_of_mem _ hmem, ?_, ?_⟩
        · simp only [modelSum, List.map_cons, List.sum_cons] at *
          rw [hsum]; ring
        · intro x hx
          rcases List.mem_cons.mp hx with rfl | hx'
          · exact List.mem_cons_self _ _
          · exact List.mem_cons_of_mem _ (hsub x hx')

theorem touchFirst_amounts {nm : String} {now : ℚ} {l l' : List ModelInfo}
    (h : touchFirst nm now l = some l') :
    l'.map (fun m => m.vramUsageGb) = l.map (fun m => m.vramUsageGb) := by
  induction l generalizing l' with
  | nil => simp [touchFirst] at h
  | cons a tl ih =>
      by_cases ha : a.name == nm
      · have : l' = { a with lastUsed := now } :: tl := by
          simpa [touchFirst, ha] using h.symm
        subst this
        simp
      · simp only [touchFirst, ha, if_neg, Bool.false_eq_true, not_false_iff,
          Option.map_eq_some'] at h
        rcases h with ⟨tl', hrec, rfl⟩
        simp [ih hrec]

theorem ServiceWF.usedNonneg {s : ServiceInfo} (h : ServiceWF s) :
    0 ≤ s.usedVramGb := by
  rw [h.1]; exact modelSum_nonneg h.2

theorem getVRAMStatus_available (cfg : Config) (l : List ServiceInfo) :
    (getVRAMStatus cfg l).availableVramGb =
      max 0 (cfg.totalVramGb - usedVramTotal l - cfg.vramReserveGb) := rfl

theorem modelSum_stamp (models : List ModelSpec) (now : ℚ) :
    modelSum (models.map (fun m =>
      { name := m.name, vramUsageGb := m.vramUsageGb, lastUsed := now })) =
      specSum models := by
  simp [modelSum, specSum, List.map_map, Function.comp_def]

theorem registerService_preserves_Inv (cfg : Config) (st : MState)
    (serviceName serviceUrl : String) (models : List ModelSpec) (now : ℚ)
    (hm : ∀ m ∈ models, 0 ≤ m.vramUsageGb)
    (hInv : Inv cfg st) :
    Inv cfg (registerService cfg st serviceName serviceUrl models now).2 := by
  rcases hInv with ⟨hWF, hLed⟩
  by_cases hrej : specSum models > (getVRAMStatus cfg st.services).availableVramGb
  · simp only [registerService, hrej, if_pos]
    exact ⟨hWF, hLed⟩
  · simp only [registerService, hrej, if_neg, not_false_iff]
    push_neg at hrej
    rw [getVRAMStatus_available] at hrej
    have h0 : ∀ s ∈ st.services, 0 ≤ s.usedVramGb :=
      fun s hs => (hWF s hs).usedNonneg
    refine ⟨?_, ?_⟩
    · intro s hs
      rcases mem_mapSet hs with rfl | hs'
      · refine ⟨?_, ?_⟩
        · simp [modelSum_stamp]
        · intro m hm'
          rcases List.mem_map.mp hm' with ⟨m0, hm0, rfl⟩
          exact hm m0 hm0
      · exact hWF s hs'
    · have hle := @usedVramTotal_mapSet_le st.services serviceName
        { name := serviceName, url := serviceUrl
          models := models.map (fun m =>
            { name := m.name, vramUsageGb := m.vramUsageGb, lastUsed := now })
          usedVramGb := specSum models } h0
      simp only at hle
      rcases le_total (cfg.totalVramGb - usedVramTotal st.services - cfg.vramReserveGb) 0
        with hc | hc
      · rw [max_eq_left hc] at hrej
        linarith
      · rw [max_eq_right hc] at hrej
        linarith

theorem unloadModelInternal_preserves_Inv (cfg : Config) (st : MState)
    (modelName serviceName : String) (notifyOk : Bool)
    (hInv : Inv cfg st) :
    Inv cfg (unloadModelInternal st modelName serviceName notifyOk).state := by
  rcases hInv with ⟨hWF, hLed⟩
  cases hget : mapGet st.services serviceName with
  | none => simp only [unloadModelInternal, hget]; exact ⟨hWF, hLed⟩
  | some service =>
      cases hrm : removeFirst modelName service.models with
      | none => simp only [unloadModelInternal, hget, hrm]; exact ⟨hWF, hLed⟩
      | some p =>
          obtain ⟨model, rest⟩ := p
          have hsWF := hWF service (mapGet_mem hget)
          rcases removeFirst_eq_some hrm with ⟨hmem, hsum, hsub⟩
          have hfreed : 0 ≤ model.vramUsageGb := hsWF.2 model hmem
          simp only [unloadModelInternal, hget, hrm]
          refine ⟨?_, ?_⟩
          · intro s hs
            rcases mem_mapSet hs with rfl | hs'
            · refine ⟨?_, ?_⟩
              · simp only
                rw [hsWF.1, hsum]
                ring
              · intro m hm'
                exact hsWF.2 m (hsub m hm')
            · exact hWF s hs'
          · rw [usedVramTotal_mapSet_of_get hget]
            simp only
            linarith

theorem updateModelUsage_preserves_Inv (cfg : Config) (st : MState)
    (modelName serviceName : String) (now : ℚ)
    (hInv : Inv cfg st) :
    Inv cfg (updateModelUsage st modelName serviceName now).2 := by
  rcases hInv with ⟨hWF, hLed⟩
  cases hget : mapGet st.services serviceName with
  | none => simp only [updateModelUsage, hget]; exact ⟨hWF, hLed⟩
  | some service =>
      cases htf : touchFirst modelName now service.models with
      | none => simp only [updateModelUsage, hget, htf]; exact ⟨hWF, hLed⟩
      | some models' =>
          have hsWF := hWF service (mapGet_mem hget)
          have hamounts := touchFirst_amounts htf
          have hmsum : modelSum models' = modelSum service.models := by
            unfold modelSum
            rw [hamounts]
          simp only [updateModelUsage, hget, htf]
          refine ⟨?_, ?_⟩
          · intro s hs
            rcases mem_mapSet hs with rfl | hs'
            · refine ⟨?_, ?_⟩
              · simp only
                rw [hmsum]
                exact hsWF.1
              · intro m hm'
                have hv : m.vramUsageGb ∈ models'.map (fun m => m.vramUsageGb) :=
                  List.mem_map_of_mem _ hm'
                rw [hamounts] at hv
                rcases List.mem_map.mp hv with ⟨m0, hm0, heq⟩
                rw [← heq]
                exact hsWF.2 m0 hm0
            · exact hWF s hs'
          · rw [usedVramTotal_mapSet_of_get hget]
            simp only
            linarith

theorem sweepModels_preserves_Inv (cfg : Config) (now : ℚ) (serviceName : String) :
    ∀ (fuel k : Nat) (st : MState), Inv cfg st →
      Inv cfg (sweepModels cfg now serviceName fuel k st) := by
  intro fuel
  induction fuel with
  | zero => intro k st h; exact h
  | succ fuel ih =>
      intro k st h
      cases hget : mapGet st.services serviceName with
      | none => simp only [sweepModels, hget]; exact h
      | some service =>
          by_cases hk : k < service.models.length
          · by_cases hcond : (now - (service.models.get ⟨k, hk⟩).lastUsed) / (1000 * 60) >
                cfg.unloadTimeoutMinutes
            · simp only [sweepModels, hget, hk, dif_pos, hcond, if_pos]
              exact ih _ _ (unloadModelInternal_preserves_Inv cfg st _ _ true h)
            · simp only [sweepModels, hget, hk, dif_pos, hcond, if_neg, not_false_iff]
              exact ih _ _ h
          · simp only [sweepModels, hget, hk, dif_neg, not_false_iff]
            exact h

theorem foldl_preserves {α : Type} {P : MState → Prop} (f : MState → α → MState)
    (hf : ∀ st a, P st → P (f st a)) :
    ∀ (l : List α) (st : MState), P st → P (l.foldl f st) := by
  intro l
  induction l with
  | nil => intro st h; exact h
  | cons a tl ih => intro st h; exact ih _ (hf st a h)

theorem autoUnload_preserves_Inv (cfg : Config) (now : ℚ) (st : MState)
    (h : Inv cfg st) : Inv cfg (autoUnloadInactiveModels cfg now st) := by
  unfold autoUnloadInactiveModels
  exact foldl_preserves _
    (fun acc nm h' => sweepModels_preserves_Inv cfg now nm _ 0 acc h') _ _ h

theorem loadedSum_eq_usedVramTotal {l : List ServiceInfo}
    (h : ∀ s ∈ l, ServiceWF s) : loadedSum l = usedVramTotal l := by
  induction l with
  | nil => rfl
  | cons s rest ih =>
      have h1 := (h s (List.mem_cons_self s rest)).1
      have h2 := ih (fun x hx => h x (List.mem_cons_of_mem _ hx))
      simp only [loadedSum, usedVramTotal, List.map_cons, List.sum_cons] at h2 ⊢
      rw [h1, h2]

theorem reachable_Inv (cfg : Config) (st : MState)
    (hcap : cfg.vramReserveGb ≤ cfg.totalVramGb)
    (h : Reachable cfg st) : Inv cfg st := by
  induction h with
  | init =>
      refine ⟨fun s hs => absurd hs (List.not_mem_nil s), ?_⟩
      simp only [usedVramTotal, List.map_nil, List.sum_nil]
      linarith
  | register st sn su models now hm hst ih =>
      exact registerService_preserves_Inv cfg st sn su models now hm ih
  | unload st mn sn ok hst ih =>
      exact unloadModelInternal_preserves_Inv cfg st mn sn ok ih
  | touch st mn sn now hst ih =>
      exact updateModelUsage_preserves_Inv cfg st mn sn now ih
  | sweep st now hst ih =>
      exact autoUnload_preserves_Inv cfg now st ih

/-- Per-service usage consistency alone: the cached `usedVramGb` of every
service equals the sum of the amounts of its models. -/
def ConsistentUsed (st : MState) : Prop :=
  ∀ s ∈ st.services, s.usedVramGb = modelSum s.models

theorem registerService_preserves_cons (cfg : Config) (st : MState)
    (serviceName serviceUrl : String) (models : List ModelSpec) (now : ℚ)
    (h : ConsistentUsed st) :
    ConsistentUsed (registerService cfg st serviceName serviceUrl models now).2 := by
  by_cases hrej : specSum models > (getVRAMStatus cfg st.services).availableVramGb
  · simp only [registerService, hrej, if_pos]
    exact h
  · simp only [registerService, hrej, if_neg, not_false_iff]
    intro s hs
    rcases mem_mapSet hs with rfl | hs'
    · simp [modelSum_stamp]
    · exact h s hs'

theorem unloadModelInternal_preserves_cons (st : MState)
    (modelName serviceName : String) (notifyOk : Bool)
    (h : ConsistentUsed st) :
    ConsistentUsed (unloadModelInternal st modelName serviceName notifyOk).state := by
  cases hget : mapGet st.services serviceName with
  | none => simp only [unloadModelInternal, hget]; exact h
  | some service =>
      cases hrm : removeFirst modelName service.models with
      | none => simp only [unloadModelInternal, hget, hrm]; exact h
      | some p =>
          obtain ⟨model, rest⟩ := p
          have hsC := h service (mapGet_mem hget)
          rcases removeFirst_eq_some hrm with ⟨hmem, hsum, hsub⟩
          simp only [unloadModelInternal, hget, hrm]
          intro s hs
          rcases mem_mapSet hs with rfl | hs'
          · simp only
            rw [hsC, hsum]
            ring
          · exact h s hs'

theorem updateModelUsage_preserves_cons (st : MState)
    (modelName serviceName : String) (now : ℚ)
    (h : ConsistentUsed st) :
    ConsistentUsed (updateModelUsage st modelName serviceName now).2 := by
  cases hget : mapGet st.services serviceName with
  | none => simp only [updateModelUsage, hget]; exact h
  | some service =>
      cases htf : touchFirst modelName now service.models with
      | none => simp only [updateModelUsage, hget, htf]; exact h
      | some models' =>
          have hsC := h service (mapGet_mem hget)
          have hmsum : modelSum models' = modelSum service.models := by
            unfold modelSum
            rw [touchFirst_amounts htf]
          simp only [updateModelUsage, hget, htf]
          intro s hs
          rcases mem_mapSet hs with rfl | hs'
          · simp only
            rw [hmsum]
            exact hsC
          · exact h s hs'

theorem sweepModels_preserves_cons (cfg : Config) (now : ℚ) (serviceName : String) :
    ∀ (fuel k : Nat) (st : MState), ConsistentUsed st →
      ConsistentUsed (sweepModels cfg now serviceName fuel k st) := by
  intro fuel
  induction fuel with
  | zero => intro k st h; exact h
  | succ fuel ih =>
      intro k st h
      cases hget : mapGet st.services serviceName with
      | none => simp only [sweepModels, hget]; exact h
      | some service =>
          by_cases hk : k < service.models.length
          · by_cases hcond : (now - (service.models.get ⟨k, hk⟩).lastUsed) / (1000 * 60) >
                cfg.unloadTimeoutMinutes
            · simp only [sweepModels, hget, hk, dif_pos, hcond, if_pos]
              exact ih _ _ (unloadModelInternal_preserves_cons st _ _ true h)
            · simp only [sweepModels, hget, hk, dif_pos, hcond, if_neg, not_false_iff]
              exact ih _ _ h
          · simp only [sweepModels, hget, hk, dif_neg, not_false_iff]
            exact h

theorem autoUnload_preserves_cons (cfg : Config) (now : ℚ) (st : MState)
    (h : ConsistentUsed st) :
    ConsistentUsed (autoUnloadInactiveModels cfg now st) := by
  unfold autoUnloadInactiveModels
  exact foldl_preserves (P := ConsistentUsed) _
    (fun acc nm h' => sweepModels_preserves_cons cfg now nm _ 0 acc h') _ _ h

theorem loadServices_aux (now : ℚ) :
    ∀ (config : List PersistedService) (acc : List ServiceInfo),
      (∀ s ∈ acc, s.usedVramGb = modelSum s.models) →
      ∀ s ∈ config.foldl (fun acc svc => mapSet acc svc.name (loadOne now svc)) acc,
        s.usedVramGb = modelSum s.models := by
  intro config
  induction config with
  | nil => intro acc h s hs; exact h s hs
  | cons c tl ih =>
      intro acc h s hs
      simp only [List.foldl_cons] at hs
      refine ih _ ?_ s hs
      intro x hx
      rcases mem_mapSet hx with rfl | hx'
      · simp [loadOne, modelSum_stamp]
      · exact h x hx'

theorem loadServices_consistent (config : List PersistedService) (now : ℚ) :
    ConsistentUsed { services := loadServices config now, config := config } := by
  intro s hs
  exact loadServices_aux now config [] (by intro x hx; cases hx) s hs

/-- C1: in every state reachable from the initial empty registry through
the public operations (`registerService`, `unloadModel`,
`updateModelUsage`, `autoUnloadInactiveModels`; `getVRAMStatus` reads no
registry state in the model), the sum of the committed `vramUsageGb`
amounts of all loaded leases is at most TotalCapacity minus
ReserveMargin. -/
theorem C1_ledger_invariant (cfg : Config) (st : MState)
    (hcap : cfg.vramReserveGb ≤ cfg.totalVramGb)
    (h : Reachable cfg st) :
    loadedSum st.services ≤ cfg.totalVramGb - cfg.vramReserveGb := by
  have hInv := reachable_Inv cfg st hcap h
  rw [loadedSum_eq_usedVramTotal hInv.1]
  exact hInv.2

theorem C1_ledger_invariant_witness :
    ((4 : ℚ) ≤ 64) ∧
      loadedSum (registerService
          { totalVramGb := 64, vramReserveGb := 4, unloadTimeoutMinutes := 30 }
          { services := [], config := [] } "svc-a" "http://a:1"
          [{ name := "m", vramUsageGb := 20 }] 0).2.services ≤ 64 - 4 :=
  ⟨by norm_num,
    C1_ledger_invariant _ _ (by norm_num)
      (Reachable.register _ "svc-a" "http://a:1" _ 0 (by decide) Reachable.init)⟩

/-- C3: a registration whose requested total exceeds TotalCapacity minus
ReserveMargin (so it could not fit even after evicting every other
collaborator's leases) is rejected with the capacity error, and the
whole state — services map and persisted config — is exactly as before
the call. -/
theorem C3_reject_atomic (cfg : Config) (st : MState)
    (serviceName serviceUrl : String) (models : List ModelSpec) (now : ℚ)
    (hcap : 0 ≤ cfg.totalVramGb - cfg.vramReserveGb)
    (hused : 0 ≤ usedVramTotal st.services)
    (hbig : cfg.totalVramGb - cfg.vramReserveGb < specSum models) :
    (registerService cfg st serviceName serviceUrl models now).1 =
      { success := false, message := "Not enough VRAM available" } ∧
      (registerService cfg st serviceName serviceUrl models now).2 = st := by
  have hcond : specSum models > (getVRAMStatus cfg st.services).availableVramGb := by
    rw [getVRAMStatus_available]
    rcases le_total (cfg.totalVramGb - usedVramTotal st.services - cfg.vramReserveGb) 0
      with hc | hc
    · rw [max_eq_left hc]; linarith
    · rw [max_eq_right hc]; linarith
  simp [registerService, hcond]

theorem C3_reject_atomic_witness :
    ((0 : ℚ) ≤ 64 - 4) ∧
      (0 : ℚ) ≤ usedVramTotal ([] : List ServiceInfo) ∧
      (64 - 4 : ℚ) < specSum [{ name := "big", vramUsageGb := 70 }] ∧
      ((registerService { totalVramGb := 64, vramReserveGb := 4, unloadTimeoutMinutes := 30 }
          { services := [], config := [] } "svc" "http://s" [{ name := "big", vramUsageGb := 70 }] 0).1 =
        { success := false, message := "Not enough VRAM available" } ∧
       (registerService { totalVramGb := 64, vramReserveGb := 4, unloadTimeoutMinutes := 30 }
          { services := [], config := [] } "svc" "http://s" [{ name := "big", vramUsageGb := 70 }] 0).2 =
        { services := [], config := [] }) :=
  ⟨by norm_num, by simp [usedVramTotal], by norm_num [specSum],
   C3_reject_atomic _ _ "svc" "http://s" _ 0 (by norm_num) (by simp [usedVramTotal])
     (by norm_num [specSum])⟩

/-- C10: per-service usage consistency — the cached `usedVramGb` equals
the sum of `vramUsageGb` over the service's current models — is
preserved by registration (and re-registration), unload, last-used
refresh and the auto-unload sweep, and is established from scratch by
load-from-config. -/
theorem C10_used_consistency :
    (∀ (cfg : Config) (st : MState) (sn su : String) (models : List ModelSpec) (now : ℚ),
        ConsistentUsed st → ConsistentUsed (registerService cfg st sn su models now).2) ∧
    (∀ (st : MState) (mn sn : String) (ok : Bool),
        ConsistentUsed st → ConsistentUsed (unloadModelInternal st mn sn ok).state) ∧
    (∀ (st : MState) (mn sn : String) (now : ℚ),
        ConsistentUsed st → ConsistentUsed (updateModelUsage st mn sn now).2) ∧
    (∀ (cfg : Config) (now : ℚ) (st : MState),
        ConsistentUsed st → ConsistentUsed (autoUnloadInactiveModels cfg now st)) ∧
    (∀ (config : List PersistedService) (now : ℚ),
        ConsistentUsed { services := loadServices config now, config := config }) :=
  ⟨registerService_preserves_cons, unloadModelInternal_preserves_cons,
   updateModelUsage_preserves_cons,
   fun cfg now st h => autoUnload_preserves_cons cfg now st h,
   loadServices_consistent⟩

theorem C10_used_consistency_witness :
    ConsistentUsed { services := [], config := [] } ∧
      ConsistentUsed (unloadModelInternal
        (registerService { totalVramGb := 64, vramReserveGb := 4, unloadTimeoutMinutes := 30 }
          { services := [], config := [] } "svc" "http://s" [{ name := "m", vramUsageGb := 8 }] 0).2
        "m" "svc" true).state :=
  ⟨fun s hs => absurd hs (List.not_mem_nil s),
   C10_used_consistency.2.1 _ "m" "svc" true
     (C10_used_consistency.1 _ _ "svc" "http://s" _ 0
       (fun s hs => absurd hs (List.not_mem_nil s)))⟩

theorem mapGet_mapSet_self {l : List ServiceInfo} {nm : String} {v : ServiceInfo}
    (hv : v.name = nm) (hex : (mapGet l nm).isSome) :
    mapGet (mapSet l nm v) nm = some v := by
  induction l with
  | nil => simp [mapGet] at hex
  | cons s rest ih =>
      by_cases hs : s.name == nm
      · simp [mapSet, hs, mapGet, List.find?, hv]
      · have hex' : (mapGet rest nm).isSome := by
          simpa [mapGet, List.find?, hs] using hex
        simp only [mapSet, hs, if_neg, Bool.false_eq_true, not_false_iff]
        simpa [mapGet, List.find?, hs] using ih hex'

theorem mapSet_map_name {l : List ServiceInfo} {nm : String} {v : ServiceInfo}
    (hv : v.name = nm) (hex : (mapGet l nm).isSome) :
    (mapSet l nm v).map (fun s => s.name) = l.map (fun s => s.name) := by
  induction l with
  | nil => simp [mapGet] at hex
  | cons s rest ih =>
      by_cases hs : s.name == nm
      · have : s.name = nm := by simpa using hs
        simp [mapSet, hs, hv, this]
      · have hex' : (mapGet rest nm).isSome := by
          simpa [mapGet, List.find?, hs] using hex
        simp [mapSet, hs, ih hex']

theorem mapGet_name {l : List ServiceInfo} {nm : String} {s : ServiceInfo}
    (h : mapGet l nm = some s) : s.name = nm := by
  have := List.find?_some h
  simpa using this

/-- Concrete fixture: one model of 5 GB, last used at time 0. -/
def modelM : ModelInfo := { name := "m", vramUsageGb := 5, lastUsed := 0 }

/-- Concrete fixture: the service holding `modelM`. -/
def svcM : ServiceInfo :=
  { name := "svc", url := "http://s", models := [modelM], usedVramGb := 5 }

/-- Concrete fixture: registry holding just `svcM`. -/
def stM : MState := { services := [svcM], config := [] }

/-- Concrete fixture: the same service with its model already released. -/
def svcReleased : ServiceInfo :=
  { name := "svc", url := "http://s", models := [], usedVramGb := 0 }

/-- Concrete fixture: registry holding just `svcReleased`. -/
def stReleased : MState := { services := [svcReleased], config := [] }

/-- C6 (amended): evicting a lease removes its record from the owning
service's model list (the source keeps no `loaded` flag), while the
collaborator's registry entry itself is retained — the service map keeps
exactly the same names in the same order, with the evicted service's
entry updated to the remaining models and reduced usage. -/
theorem C6_eviction_removes_record (st : MState) (mn sn : String) (ok : Bool)
    (service : ServiceInfo) (model : ModelInfo) (rest : List ModelInfo)
    (hget : mapGet st.services sn = some service)
    (hrm : removeFirst mn service.models = some (model, rest)) :
    mapGet (unloadModelInternal st mn sn ok).state.services sn =
      some { name := service.name, url := service.url, models := rest,
             usedVramGb := service.usedVramGb - model.vramUsageGb } ∧
    (unloadModelInternal st mn sn ok).state.services.map (fun s => s.name) =
      st.services.map (fun s => s.name) := by
  have hex : (mapGet st.services sn).isSome := by rw [hget]; rfl
  have hname : service.name = sn := mapGet_name hget
  constructor
  · simp only [unloadModelInternal, hget, hrm]
    exact mapGet_mapSet_self hname hex
  · simp only [unloadModelInternal, hget, hrm]
    exact mapSet_map_name hname hex

theorem C6_eviction_removes_record_witness :
    (mapGet stM.services "svc" = some svcM) ∧
    (removeFirst "m" svcM.models = some (modelM, [])) ∧
    (mapGet (unloadModelInternal stM "m" "svc" true).state.services "svc" =
      some { name := svcM.name, url := svcM.url, models := [],
             usedVramGb := svcM.usedVramGb - modelM.vramUsageGb } ∧
     (unloadModelInternal stM "m" "svc" true).state.services.map (fun s => s.name) =
      stM.services.map (fun s => s.name)) :=
  ⟨by simp [stM, svcM, mapGet, List.find?],
   by simp [svcM, modelM, removeFirst],
   C6_eviction_removes_record stM "m" "svc" true svcM modelM []
     (by simp [stM, svcM, mapGet, List.find?])
     (by simp [svcM, modelM, removeFirst])⟩

/-- C6 (counterexample to the claim as stated): on a registry holding the
single lease record "m" for service "svc", the eviction succeeds but
afterwards no lease record at all remains with the service — the record
is deleted, not retained with a cleared loaded flag. -/
theorem C6_record_not_retained :
    (stM.services.map (fun s => s.models.map (fun m => m.name)) = [["m"]]) ∧
    ((unloadModelInternal stM "m" "svc" true).result.success = true) ∧
    ((unloadModelInternal stM "m" "svc" true).state.services.map
        (fun s => s.models.map (fun m => m.name)) = [[]]) := by
  refine ⟨by simp [stM, svcM, modelM], ?_, ?_⟩ <;>
    simp [unloadModelInternal, stM, svcM, modelM, mapGet, List.find?, removeFirst, mapSet]

/-- C7: for an eviction that actually evicts, the event trace is commit,
then persist, then the notification attempt — the ledger change and the
config write precede the callback — and neither the resulting state nor
the returned result depends on the notification outcome: the call
reports success with the freed amount even when the callback fails. -/
theorem C7_commit_before_notify (st : MState) (mn sn : String) (notifyOk : Bool)
    (service : ServiceInfo) (model : ModelInfo) (rest : List ModelInfo)
    (hget : mapGet st.services sn = some service)
    (hrm : removeFirst mn service.models = some (model, rest)) :
    (unloadModelInternal st mn sn notifyOk).events =
      [Event.commit, Event.persist, Event.notifyAttempt notifyOk] ∧
    (unloadModelInternal st mn sn notifyOk).state =
      (unloadModelInternal st mn sn true).state ∧
    (unloadModelInternal st mn sn notifyOk).result =
      (unloadModelInternal st mn sn true).result ∧
    (unloadModelInternal st mn sn notifyOk).result.success = true ∧
    (unloadModelInternal st mn sn notifyOk).result.freedVramGb = model.vramUsageGb := by
  simp [unloadModelInternal, hget, hrm]

theorem C7_commit_before_notify_witness :
    (mapGet stM.services "svc" = some svcM) ∧
    ((unloadModelInternal stM "m" "svc" false).events =
      [Event.commit, Event.persist, Event.notifyAttempt false] ∧
     (unloadModelInternal stM "m" "svc" false).state =
      (unloadModelInternal stM "m" "svc" true).state ∧
     (unloadModelInternal stM "m" "svc" false).result =
      (unloadModelInternal stM "m" "svc" true).result ∧
     (unloadModelInternal stM "m" "svc" false).result.success = true ∧
     (unloadModelInternal stM "m" "svc" false).result.freedVramGb = modelM.vramUsageGb) :=
  ⟨by simp [stM, svcM, mapGet, List.find?],
   C7_commit_before_notify stM "m" "svc" false svcM modelM []
     (by simp [stM, svcM, mapGet, List.find?])
     (by simp [svcM, modelM, removeFirst])⟩

/-- C8 (amended): releasing resources that were already released — the
service exists but holds no model of that name any more — returns a
not-found failure (`success = false`) with zero freed amount, leaving
the state untouched; the source does not report success for a double
release. -/
theorem C8_double_release_not_found (st : MState) (mn sn : String) (ok : Bool)
    (service : ServiceInfo)
    (hget : mapGet st.services sn = some service)
    (hnone : removeFirst mn service.models = none) :
    (unloadModelInternal st mn sn ok).result.success = false ∧
    (unloadModelInternal st mn sn ok).result.freedVramGb = 0 ∧
    (unloadModelInternal st mn sn ok).state = st := by
  simp [unloadModelInternal, hget, hnone]

theorem C8_double_release_not_found_witness :
    (mapGet stReleased.services "svc" = some svcReleased) ∧
    ((unloadModelInternal stReleased "m" "svc" true).result.success = false ∧
     (unloadModelInternal stReleased "m" "svc" true).result.freedVramGb = 0 ∧
     (unloadModelInternal stReleased "m" "svc" true).state = stReleased) :=
  ⟨by simp [stReleased, svcReleased, mapGet, List.find?],
   C8_double_release_not_found stReleased "m" "svc" true svcReleased
     (by simp [stReleased, svcReleased, mapGet, List.find?])
     (by simp [svcReleased, removeFirst])⟩

/-- C8 (counterexample to the claim as stated): after a successful unload
of model "m" from service "svc", unloading it again returns
`success = false` with zero freed amount — a not-found error, not the
success-with-zero the claim asserts. -/
theorem C8_second_release_fails :
    ((unloadModelInternal (unloadModelInternal stM "m" "svc" true).state
        "m" "svc" true).result.success = false) ∧
    ((unloadModelInternal (unloadModelInternal stM "m" "svc" true).state
        "m" "svc" true).result.freedVramGb = 0) := by
  constructor <;>
    simp [unloadModelInternal, stM, svcM, modelM, mapGet, List.find?, removeFirst, mapSet]
/-- Concrete fixture: the default configuration (64 GB total, 4 GB
reserve, 30 minute idle timeout). -/
def cfg64 : Config := { totalVramGb := 64, vramReserveGb := 4, unloadTimeoutMinutes := 30 }

/-- Concrete fixture: a 20 GB service, as in the repository's test
scenario. -/
def svcOne : ServiceInfo :=
  { name := "service-1", url := "http://localhost:8001"
    models := [{ name := "model-1", vramUsageGb := 20, lastUsed := 0 }]
    usedVramGb := 20 }

/-- Concrete fixture: a 30 GB service, as in the repository's test
scenario. -/
def svcTwo : ServiceInfo :=
  { name := "service-2", url := "http://localhost:8002"
    models := [{ name := "model-2", vramUsageGb := 30, lastUsed := 0 }]
    usedVramGb := 30 }

/-- Concrete fixture: registry holding `svcOne` and `svcTwo` (50 GB used
of a 64 GB total with 4 GB reserve, so 10 GB available). -/
def stAB : MState := { services := [svcOne, svcTwo], config := [] }

/-- C2 (code bug): at the scenario prescribed by the spec and by the
repository's own test suite — 20 GB and 30 GB services registered under
a 64 GB total with 4 GB reserve, then a 25 GB request — the admission
path evicts nothing and rejects: `registerService` only compares the
request against available VRAM (10 GB) and fails with the registry
unchanged.  There is no deficit computation, no victim selection and no
eviction anywhere on the admission path. -/
theorem C2_no_eviction_on_admission :
    (registerService cfg64 stAB "test-service" "http://localhost:8888"
        [{ name := "model-t", vramUsageGb := 25 }] 0).1.success = false ∧
    (registerService cfg64 stAB "test-service" "http://localhost:8888"
        [{ name := "model-t", vramUsageGb := 25 }] 0).2 = stAB := by
  have hused : usedVramTotal stAB.services = 50 := by
    norm_num [stAB, svcOne, svcTwo, usedVramTotal]
  have hcond : specSum [{ name := "model-t", vramUsageGb := 25 }] >
      (getVRAMStatus cfg64 stAB.services).availableVramGb := by
    rw [getVRAMStatus_available, hused]
    have hmax : max (0 : ℚ) (cfg64.totalVramGb - 50 - cfg64.vramReserveGb) = 10 := by
      rw [show cfg64.totalVramGb - 50 - cfg64.vramReserveGb = (10 : ℚ) by norm_num [cfg64]]
      exact max_eq_right (by norm_num)
    rw [hmax]
    norm_num [specSum]
  simp [registerService, hcond]

/-- Concrete fixture: first of two models that are both idle past the
timeout. -/
def modelM1 : ModelInfo := { name := "m1", vramUsageGb := 2, lastUsed := 0 }

/-- Concrete fixture: second of two models that are both idle past the
timeout. -/
def modelM2 : ModelInfo := { name := "m2", vramUsageGb := 3, lastUsed := 0 }

/-- Concrete fixture: a service holding `modelM1` and `modelM2`. -/
def svcStale : ServiceInfo :=
  { name := "s", url := "http://s", models := [modelM1, modelM2], usedVramGb := 5 }

/-- Concrete fixture: registry holding just `svcStale`. -/
def stStale : MState := { services := [svcStale], config := [] }

/-- C4 (code bug): with both models of service "s" idle for 60 minutes
against a 30 minute timeout, one sweep of `autoUnloadInactiveModels`
unloads only "m1" and leaves "m2" loaded: the body splices the current
model out of the very array the `for...of` loop is iterating, so the
iterator skips the element that slides into the spliced slot.  The claim
that one sweep evicts every overdue lease fails, although "m2" is
overdue at the sweep's time. -/
theorem C4_sweep_skips_after_splice :
    ((3600000 - modelM2.lastUsed) / (1000 * 60) > cfg64.unloadTimeoutMinutes) ∧
    ((autoUnloadInactiveModels cfg64 3600000 stStale).services.map
        (fun s => s.models.map (fun m => m.name)) = [["m2"]]) := by
  have hc : (30 : ℚ) < 3600000 / (1000 * 60) := by norm_num
  constructor
  · norm_num [modelM2, cfg64]
  · simp [autoUnloadInactiveModels, stStale, svcStale, modelM1, modelM2, cfg64,
      sweepModels, unloadModelInternal, mapGet, List.find?, removeFirst, mapSet,
      serializeServices, hc]

theorem mapSet_append {l : List ServiceInfo} {nm : String} {v : ServiceInfo}
    (h : ∀ s ∈ l, s.name ≠ nm) : mapSet l nm v = l ++ [v] := by
  induction l with
  | nil => rfl
  | cons s rest ih =>
      have hs : ¬ (s.name == nm) := by
        simpa using h s (List.mem_cons_self s rest)
      simp [mapSet, hs, ih (fun x hx => h x (List.mem_cons_of_mem _ hx))]

theorem foldl_loadOne (now : ℚ) :
    ∀ (config : List PersistedService) (acc : List ServiceInfo),
      (∀ c ∈ config, ∀ s ∈ acc, s.name ≠ c.name) →
      (config.map (fun c => c.name)).Nodup →
      config.foldl (fun acc svc => mapSet acc svc.name (loadOne now svc)) acc =
        acc ++ config.map (loadOne now) := by
  intro config
  induction config with
  | nil => intro acc _ _; simp
  | cons c tl ih =>
      intro acc hdisj hnd
      have hnd' : (c.name :: tl.map (fun c => c.name)).Nodup := by
        simpa using hnd
      have hhead : c.name ∉ tl.map (fun c => c.name) := (List.nodup_cons.mp hnd').1
      simp only [List.foldl_cons]
      rw [mapSet_append (fun s hs => hdisj c (List.mem_cons_self c tl) s hs)]
      have hdisj' : ∀ c' ∈ tl, ∀ s ∈ acc ++ [loadOne now c], s.name ≠ c'.name := by
        intro c' hc' s hs
        rcases List.mem_append.mp hs with hs | hs
        · exact hdisj c' (List.mem_cons_of_mem _ hc') s hs
        · have hsv : s = loadOne now c := by simpa using hs
          subst hsv
          intro heq
          simp only [loadOne] at heq
          exact hhead (List.mem_map.mpr ⟨c', hc', heq.symm⟩)
      rw [ih (acc ++ [loadOne now c]) hdisj' (List.nodup_cons.mp hnd').2]
      simp

/-- The interoperability skeleton of a service: its name, callback URL,
and the (resource name, amount) pair of every lease — the fields the
round-trip must preserve; timestamps are excluded. -/
def serviceProj (s : ServiceInfo) : String × String × List (String × ℚ) :=
  (s.name, s.url, s.models.map (fun m => (m.name, m.vramUsageGb)))

/-- C9: serializing a registry and loading the result into a fresh
registry reproduces the identical list of collaborators — same names,
same callback URLs, same lease resource names and amounts, in the same
order — while last-used timestamps are reset to load time. -/
theorem C9_round_trip (services : List ServiceInfo) (now : ℚ)
    (hnd : (services.map (fun s => s.name)).Nodup) :
    (loadServices (serializeServices services) now).map serviceProj =
      services.map serviceProj := by
  unfold loadServices
  rw [foldl_loadOne now (serializeServices services) []
    (by intro c hc s hs; cases hs)
    (by simpa [serializeServices, List.map_map, Function.comp_def] using hnd)]
  simp [serializeServices, serviceProj, loadOne, List.map_map, Function.comp_def]

theorem C9_round_trip_witness :
    (([svcOne, svcTwo].map (fun s => s.name)).Nodup) ∧
    ((loadServices (serializeServices [svcOne, svcTwo]) 0).map serviceProj =
      [svcOne, svcTwo].map serviceProj) :=
  ⟨by simp [svcOne, svcTwo],
   C9_round_trip [svcOne, svcTwo] 0 (by simp [svcOne, svcTwo])⟩

/-- Modelled from the spec: the static priority tier of a lease (`low`,
`medium`, `high`; unset defaults to `medium`).  The repository's
implementation has no eviction policy or priority anywhere under its
source tree — only its test suite exercises one — so the Eviction Policy
component (§4.3 of the spec) is modelled from the spec's words. -/
inductive Priority where
  | low : Priority
  | medium : Priority
  | high : Priority
deriving Repr, DecidableEq

/-- Modelled from the spec: tier order — `low` is sacrificed first. -/
def tierRank : Priority → Nat
  | Priority.low => 0
  | Priority.medium => 1
  | Priority.high => 2

/-- Modelled from the spec: a lease as the eviction policy sees it. -/
structure Lease where
  owner : String
  resource : String
  amount : ℚ
  lastUsed : ℚ
  priority : Priority
  loaded : Bool
deriving Repr, DecidableEq

/-- Modelled from the spec: the policy's order on candidates, each paired
with its insertion index in the candidate list — ascending priority
tier, then ascending last-used timestamp, ties broken by insertion
order. -/
def victimOrder (a b : Nat × Lease) : Prop :=
  tierRank a.2.priority < tierRank b.2.priority ∨
    (tierRank a.2.priority = tierRank b.2.priority ∧
      (a.2.lastUsed < b.2.lastUsed ∨
        (a.2.lastUsed = b.2.lastUsed ∧ a.1 ≤ b.1)))

instance : DecidableRel victimOrder := fun a b => by
  unfold victimOrder; infer_instance

instance : IsTotal (Nat × Lease) victimOrder := ⟨by
  intro a b
  rcases lt_trichotomy (tierRank a.2.priority) (tierRank b.2.priority) with h | h | h
  · exact Or.inl (Or.inl h)
  · rcases lt_trichotomy a.2.lastUsed b.2.lastUsed with h' | h' | h'
    · exact Or.inl (Or.inr ⟨h, Or.inl h'⟩)
    · rcases Nat.le_total a.1 b.1 with h'' | h''
      · exact Or.inl (Or.inr ⟨h, Or.inr ⟨h', h''⟩⟩)
      · exact Or.inr (Or.inr ⟨h.symm, Or.inr ⟨h'.symm, h''⟩⟩)
    · exact Or.inr (Or.inr ⟨h.symm, Or.inl h'⟩)
  · exact Or.inr (Or.inl h)⟩

instance : IsTrans (Nat × Lease) victimOrder := ⟨by
  intro a b c hab hbc
  unfold victimOrder at *
  rcases hab with h1 | ⟨h1, h1'⟩
  · rcases hbc with h2 | ⟨h2, h2'⟩
    · exact Or.inl (lt_trans h1 h2)
    · exact Or.inl (by rw [← h2]; exact h1)
  · rcases hbc with h2 | ⟨h2, h2'⟩
    · exact Or.inl (by rw [h1]; exact h2)
    · refine Or.inr ⟨h1.trans h2, ?_⟩
      rcases h1' with h3 | ⟨h3, h3'⟩
      · rcases h2' with h4 | ⟨h4, h4'⟩
        · exact Or.inl (lt_trans h3 h4)
        · exact Or.inl (by rw [← h4]; exact h3)
      · rcases h2' with h4 | ⟨h4, h4'⟩
        · exact Or.inl (by rw [h3]; exact h4)
        · exact Or.inr ⟨h3.trans h4, le_trans h3' h4'⟩⟩

/-- Modelled from the spec: the eviction candidates — loaded leases of
collaborators other than the requester. -/
def eligibleLeases (leases : List Lease) (excl : String) : List Lease :=
  leases.filter (fun l => l.loaded && l.owner != excl)

/-- Modelled from the spec: `selectVictims` with explicit insertion
indices, sorted stably by `victimOrder`. -/
def selectVictimsIdx (leases : List Lease) (excl : String) : List (Nat × Lease) :=
  List.insertionSort victimOrder (eligibleLeases leases excl).enum

/-- Modelled from the spec: the ordered victim list `selectVictims`
returns to the admission controller. -/
def selectVictims (leases : List Lease) (excl : String) : List Lease :=
  (selectVictimsIdx leases excl).map (fun p => p.2)

/-- Modelled from the spec: the caller applies victims in the policy's
order, stopping as soon as the cumulative freed amount covers the
deficit (never taking a victim once the deficit is met). -/
def takeUntilAmount (deficit : ℚ) : List Lease → List Lease
  | [] => []
  | v :: rest =>
      if deficit ≤ 0 then []
      else v :: takeUntilAmount (deficit - v.amount) rest

/-- Concrete fixture: a high-priority 20-unit lease, idle since time 0. -/
def leaseA : Lease :=
  { owner := "a", resource := "ra", amount := 20, lastUsed := 0
    priority := Priority.high, loaded := true }

/-- Concrete fixture: a low-priority 20-unit lease with the same size and
idle time as `leaseA`. -/
def leaseB : Lease :=
  { owner := "b", resource := "rb", amount := 20, lastUsed := 0
    priority := Priority.low, loaded := true }

/-- C5: the victim list is sorted by ascending priority tier, then
ascending last-used time, ties broken by insertion order (the explicit
index); it consists of exactly the eligible candidates with their
insertion indices; and in the concrete equal-size, equal-idle scenario a
request needing 20 units evicts the low-priority lease and never the
high-priority one. -/
theorem C5_eviction_ordering :
    (∀ (leases : List Lease) (excl : String),
        List.Sorted victimOrder (selectVictimsIdx leases excl)) ∧
    (∀ (leases : List Lease) (excl : String),
        (selectVictimsIdx leases excl).Perm (eligibleLeases leases excl).enum) ∧
    (takeUntilAmount 20 (selectVictims [leaseA, leaseB] "req") = [leaseB]) ∧
    leaseA ∉ takeUntilAmount 20 (selectVictims [leaseA, leaseB] "req") := by
  have heval : takeUntilAmount 20 (selectVictims [leaseA, leaseB] "req") = [leaseB] := by
    norm_num [takeUntilAmount, selectVictims, selectVictimsIdx, eligibleLeases,
      leaseA, leaseB, victimOrder, tierRank, List.enum, List.enumFrom]
  refine ⟨fun leases excl => List.sorted_insertionSort victimOrder _,
          fun leases excl => List.perm_insertionSort victimOrder _,
          heval, ?_⟩
  rw [heval]
  simp [leaseA, leaseB]

end LocalMCP
